import Mathlib

/-!
# Verification of the ai-chatter conversation-state and command-dispatch core

Shallow embedding of the TypeScript sources (`src/History.ts`, `src/Commands.ts`,
`src/ChatCompletion.ts` (moderation part), `src/AIChatter.ts`, `src/Properties.ts`,
`src/Image.ts`) in Lean 4, together with theorems settling the frozen claims
about the natural-language specification.

Modelling conventions:
- JS numbers that hold timestamps and durations are modelled as `Int`
  (all arithmetic on them in the source is integral).
- The Apps Script property store is an association list from keys to stored
  string values; a stored string is represented by its JSON-parse
  classification (`StoredVal`): it either fails `JSON.parse`, parses to a value
  rejected by `isChatHistory`, or parses to a well-formed `ChatHistory` whose
  message entries are well-typed.  `JSON.parse` throwing on a malformed string
  is modelled with an `Except` error channel.
- External effects (`setObjectProperty` failing on an oversized value, the
  completion facade) are oracles passed as function arguments.
-/

namespace AIChatter

/-- Decidable equality for `Except`, so concrete runs of the embedded
operations can be checked by `decide`. -/
instance {ε α : Type} [DecidableEq ε] [DecidableEq α] : DecidableEq (Except ε α) := fun a b =>
  match a, b with
  | .error e, .error f => decidable_of_iff (e = f) (by simp)
  | .error _, .ok _ => isFalse (by simp)
  | .ok _, .error _ => isFalse (by simp)
  | .ok x, .ok y => decidable_of_iff (x = y) (by simp)

/-! ## JS string primitives -/

/-- JS `\s` / `trim()` whitespace class. -/
def isJsSpace (c : Char) : Bool :=
  c == ' ' || c == '\t' || c == '\n' || c == '\r' ||
  c.toNat == 11 || c.toNat == 12 || c.toNat == 0xa0 || c.toNat == 0x1680 ||
  (0x2000 ≤ c.toNat && c.toNat ≤ 0x200a) ||
  c.toNat == 0x2028 || c.toNat == 0x2029 || c.toNat == 0x202f ||
  c.toNat == 0x205f || c.toNat == 0x3000 || c.toNat == 0xfeff

/-- JS `\d` digit class. -/
def isDigitChar (c : Char) : Bool := '0' ≤ c && c ≤ '9'

/-- `String.prototype.trim` on a character list. -/
def jsTrimList (l : List Char) : List Char :=
  ((l.dropWhile isJsSpace).reverse.dropWhile isJsSpace).reverse

/-- `String.prototype.trim`. -/
def jsTrim (s : String) : String := String.mk (jsTrimList s.toList)

/-- `String.prototype.startsWith`. -/
def jsStartsWith (s p : String) : Bool := p.toList.isPrefixOf s.toList

/-- `Number()` of a non-empty digit string. -/
def natOfDigits (l : List Char) : Nat := l.foldl (fun a c => 10 * a + (c.toNat - 48)) 0

/-- Fuelled worker for `String.prototype.split` with a *string* separator:
scan left to right, break at each non-overlapping occurrence of `sep`.
`acc` holds the current piece reversed; the fuel is the input length. -/
def splitLitAux (sep : List Char) : Nat → List Char → List Char → List (List Char)
  | _, acc, [] => [acc.reverse]
  | 0, acc, l => [acc.reverse ++ l]
  | fuel + 1, acc, c :: rest =>
    if sep.isPrefixOf (c :: rest) then
      acc.reverse :: splitLitAux sep fuel [] (List.drop (sep.length - 1) rest)
    else splitLitAux sep fuel (c :: acc) rest

/-- JS `String.prototype.split` with a string (non-regex) separator. -/
def jsSplitLit (s sep : String) : List String :=
  (splitLitAux sep.toList s.toList.length [] s.toList).map String.mk

/-- One decimal digit character (used for JS array index keys). -/
def digitChar (n : Nat) : Char :=
  match n % 10 with
  | 0 => '0' | 1 => '1' | 2 => '2' | 3 => '3' | 4 => '4'
  | 5 => '5' | 6 => '6' | 7 => '7' | 8 => '8' | _ => '9'

/-- Fuelled decimal rendering of a natural number (JS number-to-string for
array indices). The fuel is an upper bound on the digit count. -/
def natDecimalAux : Nat → Nat → List Char
  | 0, _ => []
  | fuel + 1, n => if n < 10 then [digitChar n] else natDecimalAux fuel (n / 10) ++ [digitChar n]

/-- Decimal string of a natural number, as produced for JS array index keys. -/
def natDecimalStr (n : Nat) : String := String.mk (natDecimalAux (n + 1) n)

/-! ## Moderation (`src/ChatCompletion.ts` bundle, `checkModeration`) -/

/-- One item of a moderation API response (`flagged` is forced to a boolean by
`isModerationResponse` before use). -/
structure ModerationResult where
  flagged : Bool
deriving DecidableEq

/-- The final check of `checkModeration`: the flagged-content error is raised
iff `!response.results.every((result) => result.flagged === false)`. -/
def moderationRaisesFlagged (results : List ModerationResult) : Bool :=
  !(results.all (fun r => r.flagged == false))

/-! ## History data model (`src/History.ts`, current version in src) -/

/-- `ChatHistoryMessage`: one message in a chat history. -/
structure ChatHistoryMessage where
  time : Int
  user : String
  text : String
deriving DecidableEq

/-- `ChatHistory`: history for a chat or a chat thread. -/
structure ChatHistory where
  space : String
  thread : Option String
  messages : List ChatHistoryMessage
deriving DecidableEq

/-- A persisted property-store string value, represented by its JSON-parse
classification: `malformed` makes `JSON.parse` throw; `nonHistory` parses but
fails the `isChatHistory` shape check; `history` parses to a well-formed
history object. -/
inductive StoredVal where
  | malformed (raw : String)
  | nonHistory (raw : String)
  | history (h : ChatHistory)
deriving DecidableEq

/-- `isChatHistory` as a partial projection on stored values. -/
def isChatHistoryVal : StoredVal → Option ChatHistory
  | .history h => some h
  | _ => none

/-- The property store: an ordered association list of keys to stored values
(JS object key order; keys are unique in any store built by the operations). -/
abbrev Store := List (String × StoredVal)

/-- Property lookup (`getProperties()[key]`). -/
def lookupStore : Store → String → Option StoredVal
  | [], _ => none
  | (k0, v0) :: rest, k => if k0 == k then some v0 else lookupStore rest k

/-- Property write (`setObjectProperty`, successful case): overwrite in place
or append a new key. -/
def insertStore : Store → String → StoredVal → Store
  | [], k, v => [(k, v)]
  | (k0, v0) :: rest, k, v =>
    if k0 == k then (k0, v) :: rest else (k0, v0) :: insertStore rest k v

/-- `deleteProperty`. -/
def eraseStore (st : Store) (k : String) : Store := st.filter (fun e => e.1 != k)

/-- Error channel for JS exceptions that escape the history module. -/
inductive JsErr where
  | jsonParseError
deriving DecidableEq

/-- `getObjectProperty` (`src/Properties.ts` lines 91-98): returns the parsed
stored value, `none` when the property is unset, and throws when the stored
string is not valid JSON. -/
def getObjectProperty (st : Store) (k : String) : Except JsErr (Option StoredVal) :=
  match lookupStore st k with
  | none => .ok none
  | some (.malformed _) => .error .jsonParseError
  | some v => .ok (some v)

/-- Incoming Google Chat message, restricted to the fields the core reads. -/
structure Message where
  spaceName : String
  threadName : String
  /-- `space.spaceThreadingState === "UNTHREADED_MESSAGES"` -/
  unthreaded : Bool
  /-- `space.singleUserBotDm === true` -/
  singleUserBotDm : Bool
  /-- `sender.name` -/
  senderName : String
  /-- `sender.displayName` -/
  senderDisplayName : String
  /-- `Math.floor(toMillisSinceEpoch(createTime))` -/
  time : Int
  /-- `argumentText` -/
  text : String
deriving DecidableEq

/-- The reserved key namespace of the history ledgers (`HISTORY_PREFIX`). -/
def historyKeyBase : String := "_history/"

/-- `getHistoryPropertyKey`. -/
def getHistoryPropertyKey (m : Message) : String :=
  historyKeyBase ++ (if m.unthreaded then m.spaceName else m.threadName)

/-- `toChatHistoryMessage`. -/
def toChatHistoryMessage (m : Message) : ChatHistoryMessage :=
  { time := m.time, user := m.senderDisplayName, text := m.text }

/-- `createChatHistory`. -/
def createChatHistory (m : Message) : ChatHistory :=
  { space := m.spaceName
    thread := if m.unthreaded then none else some m.threadName
    messages := [toChatHistoryMessage m] }

/-- Stable insertion (ascending by `time`) used to model the JS stable
`Array.prototype.sort` with comparator `h1.time - h2.time`. -/
def insertByTime (x : ChatHistoryMessage) : List ChatHistoryMessage → List ChatHistoryMessage
  | [] => [x]
  | y :: ys => if x.time ≤ y.time then x :: y :: ys else y :: insertByTime x ys

/-- `messages.sort((h1, h2) => h1.time - h2.time)` (stable, ascending). -/
def sortByTime : List ChatHistoryMessage → List ChatHistoryMessage
  | [] => []
  | x :: xs => insertByTime x (sortByTime xs)

/-- `minutesToMillis`. -/
def minutesToMillis (m : Int) : Int := m * 60 * 1000

/-- `getHistoryMillis`: retention window in millis,
`minutesToMillis(getNumberProperty(HISTORY_MINUTES) ?? 60)`. -/
def getHistoryMillis (historyMinutesProp : Option Int) : Int :=
  minutesToMillis (historyMinutesProp.getD 60)

/-- The scan loop of `pruneHistory` (`src/History.ts` lines 184-195): advance
`i` while the age strictly exceeds the window (`differenceMillis(now,
messages[i].time) <= historyMillis` breaks the loop), then drop the first `i`
entries. -/
def pruneHistoryMessages (historyMillis now : Int) : List ChatHistoryMessage → List ChatHistoryMessage
  | [] => []
  | m :: rest =>
    if now - m.time ≤ historyMillis then m :: rest
    else pruneHistoryMessages historyMillis now rest

/-- `pruneHistory` on a whole history aggregate. -/
def pruneHistory (historyMillis now : Int) (h : ChatHistory) : ChatHistory :=
  { h with messages := pruneHistoryMessages historyMillis now h.messages }

/-- The save-retry loop core: try to save the (non-empty) message list, and on
failure drop the single oldest entry (`history.messages.splice(0, 1)`) and
retry. Returns the message list that got saved, or `none` when the loop ran
out of entries. `ok` is the oracle for `setObjectProperty` succeeding. -/
def trySave (ok : List ChatHistoryMessage → Bool) : List ChatHistoryMessage → Option (List ChatHistoryMessage)
  | [] => none
  | m :: rest => if ok (m :: rest) then some (m :: rest) else trySave ok rest

/-- The save block of `getHistory` (`src/History.ts` lines 137-154): the
retry loop above, followed, when nothing could be saved, by deleting the
stored property (delete failures are logged and swallowed). Returns the
updated store and the history as the loop leaves it. -/
def saveHistoryLoop (ok : ChatHistory → Bool) (st : Store) (k : String) (h : ChatHistory) :
    Store × ChatHistory :=
  match trySave (fun ms => ok { h with messages := ms }) h.messages with
  | some ms => (insertStore st k (.history { h with messages := ms }), { h with messages := ms })
  | none => (eraseStore st k, { h with messages := [] })

/-- The expiry test inside `pruneHistories`:
`messages.length === 0 || differenceMillis(now, messages[last].time) > historyMillis`. -/
def historyExpired (historyMillis now : Int) (h : ChatHistory) : Bool :=
  match h.messages.getLast? with
  | none => true
  | some m => now - m.time > historyMillis

/-- Body of one `pruneHistories` loop iteration, for the loop variable
`propKey`. `props` is the snapshot read at loop entry, `acc` the store being
mutated by `deleteProperty`. `JSON.parse` of an absent (`undefined`) or
malformed value throws. -/
def pruneHistoriesStep (historyMillis now : Int) (props acc : Store) (propKey : String) :
    Except JsErr Store :=
  if jsStartsWith propKey historyKeyBase then
    match lookupStore props propKey with
    | none => .error .jsonParseError
    | some (.malformed _) => .error .jsonParseError
    | some (.nonHistory _) => .ok (eraseStore acc propKey)
    | some (.history h) =>
      if historyExpired historyMillis now h then .ok (eraseStore acc propKey) else .ok acc
  else .ok acc

/-- `pruneHistories` (`src/History.ts` lines 200-222). The source iterates
`for (const propKey in Object.keys(props))`: a JS `for...in` over an array
visits its *index keys* `"0"`, `"1"`, ..., so `propKey` ranges over decimal
index strings, not over the property names. -/
def pruneHistories (historyMillis now : Int) (st : Store) : Except JsErr Store :=
  ((List.range st.length).map natDecimalStr).foldlM
    (fun acc k => pruneHistoriesStep historyMillis now st acc k) st

/-- The load-and-extend phase of `getHistory` (`src/History.ts` lines
124-135), given the already-read stored value: a well-formed stored history
is pruned and extended with the incoming message and re-sorted; anything else
yields a fresh history. -/
def loadedHistory (historyMillis now : Int) (st : Store) (m : Message) : ChatHistory :=
  match (lookupStore st (getHistoryPropertyKey m)).bind isChatHistoryVal with
  | some h =>
    let pruned := pruneHistory historyMillis now h
    { pruned with messages := sortByTime (pruned.messages ++ [toChatHistoryMessage m]) }
  | none => createChatHistory m

/-- `getHistory` (`src/History.ts` lines 123-160): load the stored ledger
(throwing on a JSON-malformed value), treat a value failing `isChatHistory`
as absent, prune, append the incoming message, sort by timestamp, run the
save-retry loop, then the global prune sweep, and return the history. -/
def getHistory (historyMillis now : Int) (ok : ChatHistory → Bool) (st : Store) (m : Message) :
    Except JsErr (Store × ChatHistory) := do
  let stored ← getObjectProperty st (getHistoryPropertyKey m)
  let history : ChatHistory :=
    match stored.bind isChatHistoryVal with
    | some h =>
      let pruned := pruneHistory historyMillis now h
      { pruned with messages := sortByTime (pruned.messages ++ [toChatHistoryMessage m]) }
    | none => createChatHistory m
  let (st1, h1) := saveHistoryLoop ok st (getHistoryPropertyKey m) history
  let st2 ← pruneHistories historyMillis now st1
  return (st2, h1)

/-! ## Command failures (`src/Commands.ts`, `CommandError` / `UnauthorizedError`) -/

/-- A command failure: the `CommandError` class or its `UnauthorizedError`
subclass. -/
inductive CommandFailure where
  | commandError (msg : String)
  | unauthorizedError (msg : String)
deriving DecidableEq

/-- `INVALID_ARGS_MSG`. -/
def INVALID_ARGS_MSG : String := "Invalid command arguments"

/-! ## Admin check (`src/Commands.ts` lines 163-192) -/

/-- `PROP_OPENAI_API_KEY`. -/
def PROP_OPENAI_API_KEY : String := "OPENAI_API_KEY"

/-- `PROP_ADMINS`. -/
def PROP_ADMINS : String := "ADMINS"

/-- `getAdmins`: the configured `ADMINS` value, trimmed and split with
`split("\\s*[,\\s]\\s*")`. The separator is a *string literal* (the regex
source text), so the split is on literal occurrences of that text. -/
def getAdmins (adminsProp : Option String) : List String :=
  match adminsProp with
  | some s => if !s.isEmpty && !(jsTrim s).isEmpty then jsSplitLit (jsTrim s) "\\s*[,\\s]\\s*" else []
  | none => []

/-- `isAdmin`: `getAdmins().includes(message.sender.name)`. -/
def isAdminSender (adminsProp : Option String) (senderName : String) : Bool :=
  (getAdmins adminsProp).contains senderName

/-- `checkAdmin`: requires a one-to-one chat and an admin sender. -/
def checkAdmin (adminsProp : Option String) (m : Message) : Except CommandFailure Unit :=
  if !m.singleUserBotDm then
    .error (.commandError
      "This command is only available in a direct messaging chat between an admin and a bot.")
  else if !(isAdminSender adminsProp m.senderName) then
    .error (.unauthorizedError ("Unauthorized for this command: " ++ m.senderName))
  else .ok ()

/-! ## The `/image` argument grammar (`src/Commands.ts` lines 264-327) -/

/-- Continuation of the `n=`-token regex after the group-1 split point:
`(?:[nN]=(\d+))(\s.*|)$` — `n`/`N`, `=`, a maximal non-empty digit run, and a
remainder that is empty or starts with whitespace. -/
def contN (l : List Char) : Option (Nat × List Char) :=
  match l with
  | c :: '=' :: rest =>
    if c == 'n' || c == 'N' then
      let ds := rest.takeWhile isDigitChar
      let r := rest.dropWhile isDigitChar
      if ds.isEmpty then none
      else
        match r with
        | [] => some (natOfDigits ds, [])
        | c2 :: _ => if isJsSpace c2 then some (natOfDigits ds, r) else none
    else none
  | _ => none

/-- Continuation of the size-token regex after the group-1 split point:
`(?:(\d+)[xX](\d+))(\s.*|)$`. -/
def contSize (l : List Char) : Option (Nat × Nat × List Char) :=
  let ds1 := l.takeWhile isDigitChar
  let r1 := l.dropWhile isDigitChar
  if ds1.isEmpty then none
  else
    match r1 with
    | x :: r2 =>
      if x == 'x' || x == 'X' then
        let ds2 := r2.takeWhile isDigitChar
        let r3 := r2.dropWhile isDigitChar
        if ds2.isEmpty then none
        else
          match r3 with
          | [] => some (natOfDigits ds1, natOfDigits ds2, [])
          | c2 :: _ => if isJsSpace c2 then some (natOfDigits ds1, natOfDigits ds2, r3) else none
      else none
    | [] => none

/-- Backtracking order of the group-1 alternative `.*?\s`: try every split
point whose last consumed character is whitespace, shortest first. `pre` is
the prefix consumed so far. -/
def tryWsSplits {α : Type} (cont : List Char → Option α) :
    List Char → List Char → Option (List Char × α)
  | _, [] => none
  | pre, c :: rest =>
    if isJsSpace c then
      match cont rest with
      | some a => some (pre ++ [c], a)
      | none => tryWsSplits cont (pre ++ [c]) rest
    else tryWsSplits cont (pre ++ [c]) rest

/-- The anchored match `^(.*?\s|)(?:...)...$`: all `.*?\s` splits are tried
(shortest first) before the empty alternative of group 1. -/
def jsLazySplit {α : Type} (cont : List Char → Option α) (l : List Char) :
    Option (List Char × α) :=
  match tryWsSplits cont [] l with
  | some r => some r
  | none => (cont l).map (fun a => ([], a))

/-- `supportedImageSizes` (`src/Image.ts`). -/
def supportedImageSizes : List String := ["256x256", "512x512", "1024x1024"]

/-- The inner size-literal match `^(\d+)[xX](\d+)$` applied to each supported
size. -/
def parseWH (s : String) : Option (Nat × Nat) :=
  let l := s.toList
  let ds1 := l.takeWhile isDigitChar
  let r1 := l.dropWhile isDigitChar
  if ds1.isEmpty then none
  else
    match r1 with
    | x :: r2 =>
      if x == 'x' || x == 'X' then
        let ds2 := r2.takeWhile isDigitChar
        let r3 := r2.dropWhile isDigitChar
        if ds2.isEmpty || !r3.isEmpty then none
        else some (natOfDigits ds1, natOfDigits ds2)
      else none
    | [] => none

/-- The filter predicate of `commandImage`'s size snapping:
`w >= width && h >= height` for the supported size `s`. -/
def sizeMatches (width height : Nat) (s : String) : Bool :=
  match parseWH s with
  | some (w, h) => decide (width ≤ w) && decide (height ≤ h)
  | none => false

/-- Size snapping in `commandImage`: the first supported size at least as
large as the request in both dimensions, or the last supported size when none
qualifies. -/
def snapImageSize (width height : Nat) : String :=
  match supportedImageSizes.filter (sizeMatches width height) with
  | s :: _ => s
  | [] => supportedImageSizes.getLastD ""

/-- The data `commandImage` extracts from its argument string. -/
structure ImageParsed where
  prompt : String
  n : Option Nat
  size : Option String
deriving DecidableEq

/-- JS truthiness of the optional argument string (`arg &&` in the source). -/
def argTruthy : Option String → Bool
  | none => false
  | some s => !s.isEmpty

/-- The token-stripping phase of `commandImage`: match the `n=` token, strip
it, then match the size token on the remainder, strip it. Returns the parsed
count, the snapped size, and the leftover prompt (still untrimmed). -/
def imageStrip (arg : Option String) : Option Nat × Option String × Option String :=
  let step1 : Option Nat × Option String :=
    match arg with
    | some s =>
      if s.isEmpty then (none, arg)
      else
        match jsLazySplit contN s.toList with
        | some (p, num, r) => (some num, some (String.mk (p ++ r)))
        | none => (none, arg)
    | none => (none, arg)
  let step2 : Option String × Option String :=
    match step1.2 with
    | some s =>
      if s.isEmpty then (none, step1.2)
      else
        match jsLazySplit contSize s.toList with
        | some (p, w, h, r) => (some (snapImageSize w h), some (String.mk (p ++ r)))
        | none => (none, step1.2)
    | none => (none, step1.2)
  (step1.1, step2.1, step2.2)

/-- The argument-parsing part of `commandImage` (`src/Commands.ts` lines
264-297): strip the two tokens, trim the remainder, and fail with
`INVALID_ARGS_MSG` unless both the original argument and the remaining prompt
are non-empty. -/
def commandImageParse (arg : Option String) : Except CommandFailure ImageParsed :=
  if argTruthy arg && !((((imageStrip arg).2.2).map jsTrim).getD "").isEmpty then
    .ok { prompt := (((imageStrip arg).2.2).map jsTrim).getD ""
          n := (imageStrip arg).1
          size := (imageStrip arg).2.1 }
  else .error (.commandError INVALID_ARGS_MSG)

/-! ## `/again` (`src/Commands.ts` lines 332-363)

The `History` module generation that `Commands.ts` imports (`ROLE_ASSISTANT`,
per-message `role` fields, the pending `imageCommand` record and the separate
`saveHistory`) is not among the provided sources; only its callers are. The
data shape below is modelled from the spec (§3, §4.1): entries carry a role in
{user, assistant} and the ledger optionally records the last repeatable image
command. `commandAgain` itself is embedded from the `Commands.ts` source as a
function of the loaded history. -/

/-- Modelled from the spec: the assistant role tag exported by the missing
`History` module generation. -/
def ROLE_ASSISTANT : String := "assistant"

/-- Modelled from the spec: the user role tag. -/
def ROLE_USER : String := "user"

/-- Modelled from the spec: a history entry of the current `History`
generation, restricted to the fields `commandAgain` reads. -/
structure RoleMessage where
  role : String
  text : String
deriving DecidableEq

/-- Modelled from the spec: the pending repeatable image command
(`history.imageCommand`). -/
structure ImageCommandRecord where
  time : Int
  arg : String
deriving DecidableEq

/-- Modelled from the spec: the ledger shape `commandAgain` operates on. -/
structure RoleHistory where
  messages : List RoleMessage
  imageCommand : Option ImageCommandRecord
deriving DecidableEq

/-- The possible successful outcomes of `/again`. -/
inductive AgainAction where
  | repeatImage (arg : String)
  | completionOn (messages : List RoleMessage)
deriving DecidableEq

/-- The trailing-assistant removal loop of `commandAgain`:
`while (last message has role assistant) remove it`. -/
def dropTrailingAssistant (l : List RoleMessage) : List RoleMessage :=
  (l.reverse.dropWhile (fun m => m.role == ROLE_ASSISTANT)).reverse

/-- `commandAgain` (`src/Commands.ts` lines 332-363), as a function of the
loaded history: reject any argument; re-execute a recorded image command
verbatim; otherwise drop trailing assistant entries and re-request completion
on the remainder, erroring when nothing remains. -/
def commandAgain (arg : Option String) (history : RoleHistory) :
    Except CommandFailure AgainAction :=
  if arg.isSome then .error (.commandError INVALID_ARGS_MSG)
  else
    match history.imageCommand with
    | some ic => .ok (.repeatImage ic.arg)
    | none =>
      let remaining := dropTrailingAssistant history.messages
      if remaining.length < 1 then
        .error (.commandError "No chat history available to be repeated.")
      else .ok (.completionOn remaining)

/-! ## `/set` (`src/Commands.ts` lines 564-584) -/

/-- The match of `PROPERTY_VALUE_REGEX` = `^([A-Za-z_]\w*)(?:\s+(.*))?$` (with
the `s` flag): a word-start character, a maximal run of word characters, and
optionally at least one whitespace character followed by the rest. -/
def isWordStart (c : Char) : Bool :=
  ('A' ≤ c && c ≤ 'Z') || ('a' ≤ c && c ≤ 'z') || c == '_'

/-- `\w` word characters. -/
def isWordChar (c : Char) : Bool := isWordStart c || isDigitChar c

/-- Applies `PROPERTY_VALUE_REGEX` and returns the two capture groups. -/
def matchPropertyValue (s : String) : Option (String × Option String) :=
  match s.toList with
  | [] => none
  | c :: rest =>
    if isWordStart c then
      let identTail := rest.takeWhile isWordChar
      let r := rest.dropWhile isWordChar
      let key := String.mk (c :: identTail)
      match r with
      | [] => some (key, none)
      | c2 :: _ =>
        if isJsSpace c2 then some (key, some (String.mk (r.dropWhile isJsSpace)))
        else none
    else none

/-- `commandSet`: admin check, argument parse, refusal of the API key, the
admin list and internally-prefixed keys, then property write or delete.
`encode` abstracts the JSON-parse classification of the raw string stored by
`setStringProperty`. -/
def commandSet (encode : String → StoredVal) (adminsProp : Option String) (st : Store)
    (m : Message) (arg : Option String) : Store × Except CommandFailure String :=
  match checkAdmin adminsProp m with
  | .error e => (st, .error e)
  | .ok _ =>
    let parsed := match arg with
      | none => none
      | some a => matchPropertyValue (jsTrim a)
    match parsed with
    | none => (st, .error (.commandError INVALID_ARGS_MSG))
    | some (key, rawValue) =>
      if key == PROP_OPENAI_API_KEY || key == PROP_ADMINS || jsStartsWith key "_" then
        (st, .error (.unauthorizedError "This property can not be set via chat"))
      else
        let value : Option String :=
          match rawValue with
          | some v => if v.isEmpty then none else some (jsTrim v)
          | none => none
        match value with
        | some v =>
          if v.isEmpty then (eraseStore st key, .ok (key ++ " is undefined"))
          else (insertStore st key (encode v), .ok (key ++ ": " ++ v))
        | none => (eraseStore st key, .ok (key ++ " is undefined"))

/-! ## Message pipeline (`src/AIChatter.ts`, current version, lines 205-251)

The non-command path of `onMessage`: moderate the input, load the history
complemented with the input message, request a completion, and save the
history — also (and first) when the completion request throws, so the input
message is persisted before the error propagates to the outer handler.

The `History` module generation used here (a `getHistory` that does not
persist, plus a separate `saveHistory`) is not among the provided sources;
the two helpers below are modelled from the spec (§4.1). -/

/-- Modelled from the spec: `getHistory` of the current `History` generation
(absent from the provided sources; only callers remain). Per §4.1 it loads
the persisted ledger or creates an empty one (a corrupt value is treated as
absent), prunes it, appends the incoming message as a new entry, and does not
persist. -/
def getHistoryNoPersist (historyMillis now : Int) (st : Store) (m : Message) : ChatHistory :=
  match (lookupStore st (getHistoryPropertyKey m)).bind isChatHistoryVal with
  | some h =>
    { h with
      messages := sortByTime (pruneHistoryMessages historyMillis now h.messages
        ++ [toChatHistoryMessage m]) }
  | none => createChatHistory m

/-- Modelled from the spec: `saveHistory` of the current `History` generation
(absent from the provided sources), restricted to its success path — persist
the ledger under its scope key. -/
def saveHistorySpec (st : Store) (m : Message) (h : ChatHistory) : Store :=
  insertStore st (getHistoryPropertyKey m) (.history h)

/-- An upstream completion failure. -/
inductive UpstreamErr where
  | completionFailed
deriving DecidableEq

/-- The completion path of `onMessage` (`src/AIChatter.ts` lines 224-241).
`completion` is the oracle for `requestChatCompletion`: it receives the
history's messages and either fails or returns the response text together
with the message list extended with the completion result. On failure, the
history is saved before the error is rethrown; on success it is saved with
the completion result folded in. -/
def onMessageCompletionPath (historyMillis now : Int) (st : Store) (m : Message)
    (completion : List ChatHistoryMessage →
      Except UpstreamErr (String × List ChatHistoryMessage)) :
    Store × Except UpstreamErr String :=
  match completion (getHistoryNoPersist historyMillis now st m).messages with
  | .error e => (saveHistorySpec st m (getHistoryNoPersist historyMillis now st m), .error e)
  | .ok (resp, msgs2) =>
    (saveHistorySpec st m
      { getHistoryNoPersist historyMillis now st m with messages := msgs2 }, .ok resp)

/-! ## Spec-side definitions used for refinement statements -/

/-- The size-snapping rule as the spec states it: the smallest supported size
with both dimensions at least the requested ones, or the largest supported
size when none qualifies. -/
def specSnapSize (width height : Nat) : String :=
  if width ≤ 256 && height ≤ 256 then "256x256"
  else if width ≤ 512 && height ≤ 512 then "512x512"
  else "1024x1024"

/-- The spec's pruning example: entries aged [120, 90, 40, 5] minutes at
`now = 10000000` ms with a 60-minute window. -/
def claim2ExampleMessages : List ChatHistoryMessage :=
  [⟨2800000, "u", "a"⟩, ⟨4600000, "u", "b"⟩, ⟨7600000, "u", "c"⟩, ⟨9700000, "u", "d"⟩]

/-! # Theorems -/

/-! ## Store and decimal-key helper lemmas -/

theorem lookupStore_insertStore_self (st : Store) (k : String) (v : StoredVal) :
    lookupStore (insertStore st k v) k = some v := by
  induction st with
  | nil => simp [insertStore, lookupStore]
  | cons e rest ih =>
    obtain ⟨k0, v0⟩ := e
    by_cases h : (k0 == k) = true
    · simp [insertStore, lookupStore, h]
    · simp only [insertStore, lookupStore, h, Bool.false_eq_true, if_false]
      simpa [lookupStore, h] using ih

theorem digitChar_toNat_bounds (n : Nat) :
    48 ≤ (digitChar n).toNat ∧ (digitChar n).toNat ≤ 57 := by
  unfold digitChar
  split <;> decide

theorem natDecimalAux_head :
    ∀ (fuel n : Nat) (c : Char) (l : List Char),
      natDecimalAux fuel n = c :: l → 48 ≤ c.toNat ∧ c.toNat ≤ 57 := by
  intro fuel
  induction fuel with
  | zero => intro n c l h; simp [natDecimalAux] at h
  | succ f ih =>
    intro n c l h
    unfold natDecimalAux at h
    split at h
    · rw [show [digitChar n] = digitChar n :: ([] : List Char) from rfl] at h
      obtain ⟨h1, _⟩ := List.cons.injEq .. ▸ h
      exact h1 ▸ digitChar_toNat_bounds n
    · cases hx : natDecimalAux f (n / 10) with
      | nil =>
        rw [hx, List.nil_append] at h
        obtain ⟨h1, _⟩ := List.cons.injEq .. ▸ h
        exact h1 ▸ digitChar_toNat_bounds n
      | cons a as =>
        rw [hx, List.cons_append] at h
        obtain ⟨h1, _⟩ := List.cons.injEq .. ▸ h
        exact h1 ▸ ih (n / 10) a as hx

theorem natDecimalAux_ne_nil (fuel n : Nat) : natDecimalAux (fuel + 1) n ≠ [] := by
  unfold natDecimalAux
  split
  · simp
  · simp

theorem startsWith_natDecimalStr (n : Nat) :
    jsStartsWith (natDecimalStr n) historyKeyBase = false := by
  unfold jsStartsWith natDecimalStr historyKeyBase
  cases hx : natDecimalAux (n + 1) n with
  | nil => exact absurd hx (natDecimalAux_ne_nil n n)
  | cons c l =>
    obtain ⟨h1, h2⟩ := natDecimalAux_head (n + 1) n c l hx
    have hne : ('_' : Char) ≠ c := by
      intro he
      have h95 : ('_' : Char).toNat = 95 := rfl
      rw [← he] at h2
      omega
    show List.isPrefixOf ("_history/".toList) (String.mk (c :: l)).toList = false
    rw [show ("_history/".toList) = '_' :: "history/".toList from rfl]
    show List.isPrefixOf ('_' :: "history/".toList) (c :: l) = false
    simp [List.isPrefixOf, beq_eq_false_iff_ne.mpr hne]

theorem pruneHistoriesStep_skip (historyMillis now : Int) (props acc : Store) (k : String)
    (h : jsStartsWith k historyKeyBase = false) :
    pruneHistoriesStep historyMillis now props acc k = .ok acc := by
  simp [pruneHistoriesStep, h]

theorem foldlM_pruneHistoriesStep_skip (historyMillis now : Int) (props : Store)
    (keys : List String) (acc : Store)
    (h : ∀ k ∈ keys, jsStartsWith k historyKeyBase = false) :
    keys.foldlM (fun a k => pruneHistoriesStep historyMillis now props a k) acc = .ok acc := by
  induction keys generalizing acc with
  | nil => rfl
  | cons k ks ih =>
    rw [List.foldlM_cons, pruneHistoriesStep_skip historyMillis now props acc k (h k (by simp))]
    show (ks.foldlM (fun a k => pruneHistoriesStep historyMillis now props a k) acc) = .ok acc
    exact ih acc fun k hk => h k (List.mem_cons_of_mem _ hk)

/-- The global prune sweep is the identity on every store: the `for...in`
loop only ever sees decimal array-index strings, which never carry the
history key namespace. -/
theorem pruneHistories_eq_ok (historyMillis now : Int) (st : Store) :
    pruneHistories historyMillis now st = .ok st := by
  unfold pruneHistories
  refine foldlM_pruneHistoriesStep_skip historyMillis now st _ st ?_
  intro k hk
  simp only [List.mem_map] at hk
  obtain ⟨i, _, rfl⟩ := hk
  exact startsWith_natDecimalStr i

/-! ## Claims C3, C6, C7 -/

/-- C3 (code_bug): the spec says the global prune sweep before every save
deletes every expired or corrupt persisted ledger. The code iterates
`for (const propKey in Object.keys(props))`, i.e. over the array's decimal
index keys, so the guard `propKey.startsWith("_history/")` never fires and the
sweep deletes nothing — shown on any store, and in particular on a store
holding a ledger that the code's own expiry test classifies as expired. -/
theorem claim3_prune_sweep_is_noop :
    (∀ (historyMillis now : Int) (st : Store),
      pruneHistories historyMillis now st = .ok st) ∧
    historyExpired 3600000 10000000
      ⟨"spaces/A", none, [⟨1000, "u", "old"⟩]⟩ = true ∧
    pruneHistories 3600000 10000000
      [("_history/spaces/A", StoredVal.history ⟨"spaces/A", none, [⟨1000, "u", "old"⟩]⟩)]
      = .ok [("_history/spaces/A", StoredVal.history ⟨"spaces/A", none, [⟨1000, "u", "old"⟩]⟩)] :=
  ⟨pruneHistories_eq_ok, by decide, by decide⟩

/-- C6 (code_bug): the claim (and the README) say an admin-tier command
passes the admin check exactly when the sender is one of the comma- or
whitespace-separated identifiers in `ADMINS`. The code splits the list on the
*literal string* `\s*[,\s]\s*` (a regex source text passed to
`String.prototype.split` as a plain string), so a two-identifier list is
returned as one unsplit element and neither listed sender passes, while a
single-identifier list still works. -/
theorem claim6_admin_list_split_is_literal :
    getAdmins (some "users/111, users/222") = ["users/111, users/222"] ∧
    isAdminSender (some "users/111, users/222") "users/111" = false ∧
    isAdminSender (some "users/111, users/222") "users/222" = false ∧
    isAdminSender (some "users/111 users/222") "users/111" = false ∧
    isAdminSender (some "users/111") "users/111" = true := by
  refine ⟨by decide, by decide, by decide, by decide, by decide⟩

/-- C7 (confirmed): the moderation check raises the flagged-content error iff
at least one result item anywhere in the response's results list has
`flagged = true` — for singleton and multi-item lists alike. -/
theorem claim7_moderation_flagged_iff (results : List ModerationResult) :
    moderationRaisesFlagged results = true ↔ ∃ r ∈ results, r.flagged = true := by
  unfold moderationRaisesFlagged
  simp [List.all_eq_true]

/-! ## Claim C2: pruning removes exactly the stale prefix -/

/-- C2 (confirmed): on a timestamp-sorted ledger, pruning keeps exactly the
entries whose age does not strictly exceed the retention window, and what it
removes is a prefix of the list — it stops at the first entry within the
window and never removes interior entries. -/
theorem claim2_prune_removes_exactly_stale_head (historyMillis now : Int) (msgs : List ChatHistoryMessage)
    (hsorted : msgs.Pairwise (fun a b => a.time ≤ b.time)) :
    pruneHistoryMessages historyMillis now msgs
      = msgs.filter (fun m => decide (now - m.time ≤ historyMillis)) ∧
    ∃ k, pruneHistoryMessages historyMillis now msgs = msgs.drop k ∧
      ∀ m ∈ msgs.take k, historyMillis < now - m.time := by
  induction msgs with
  | nil => exact ⟨rfl, 0, rfl, by simp⟩
  | cons m rest ih =>
    have hpair := List.pairwise_cons.mp hsorted
    obtain ⟨hfil, k, hdrop, htake⟩ := ih hpair.2
    by_cases hkeep : now - m.time ≤ historyMillis
    · constructor
      · have hall : ∀ x ∈ rest, (fun x => decide (now - x.time ≤ historyMillis)) x = true := by
          intro x hx
          have := hpair.1 x hx
          simp only [decide_eq_true_eq]
          omega
        rw [show pruneHistoryMessages historyMillis now (m :: rest) = m :: rest from by
          simp [pruneHistoryMessages, hkeep]]
        rw [List.filter_cons, if_pos (decide_eq_true hkeep), List.filter_eq_self.mpr hall]
      · exact ⟨0, by simp [pruneHistoryMessages, hkeep], by simp⟩
    · have hstep : pruneHistoryMessages historyMillis now (m :: rest)
          = pruneHistoryMessages historyMillis now rest := by
        simp [pruneHistoryMessages, hkeep]
      constructor
      · rw [hstep, hfil, List.filter_cons, if_neg (by simpa using hkeep)]
      · refine ⟨k + 1, by rw [hstep, hdrop, List.drop_succ_cons], ?_⟩
        intro x hx
        rw [List.take_succ_cons] at hx
        rcases List.mem_cons.mp hx with rfl | hx'
        · omega
        · exact htake x hx'

/-! ## Claim C1: the save-retry loop -/

theorem trySave_spec (p : List ChatHistoryMessage → Bool) (l : List ChatHistoryMessage) :
    (∃ k, k ≤ l.length ∧ trySave p l = some (l.drop k) ∧ p (l.drop k) = true ∧
      ∀ j < k, p (l.drop j) = false) ∨
    (trySave p l = none ∧ ∀ j < l.length, p (l.drop j) = false) := by
  induction l with
  | nil => exact .inr ⟨rfl, by simp⟩
  | cons m rest ih =>
    by_cases hp : p (m :: rest) = true
    · exact .inl ⟨0, by simp, by simp [trySave, hp], by simpa using hp, by omega⟩
    · have hp' : p (m :: rest) = false := by revert hp; cases p (m :: rest) <;> simp
      have hts : trySave p (m :: rest) = trySave p rest := by simp [trySave, hp']
      rcases ih with ⟨k, hk, ht, hpk, hlt⟩ | ⟨ht, hall⟩
      · refine .inl ⟨k + 1, by simpa using hk, ?_, ?_, ?_⟩
        · rw [hts, ht, List.drop_succ_cons]
        · rw [List.drop_succ_cons]; exact hpk
        · intro j hj
          cases j with
          | zero => simpa using hp'
          | succ i => rw [List.drop_succ_cons]; exact hlt i (by omega)
      · refine .inr ⟨by rw [hts, ht], ?_⟩
        intro j hj
        cases j with
        | zero => simpa using hp'
        | succ i =>
          rw [List.drop_succ_cons]
          exact hall i (by simpa using hj)

theorem exceptBind_ok {ε α β : Type} (v : α) (f : α → Except ε β) :
    (Except.ok v >>= f : Except ε β) = f v := rfl

/-- `getHistory` on a store whose value under the scope key is not
JSON-malformed: the result is `ok`, and is exactly the save-retry loop run on
the loaded-and-extended history. -/
theorem getHistory_eq_of_not_malformed (historyMillis now : Int) (ok : ChatHistory → Bool)
    (st : Store) (m : Message)
    (hmal : ∀ raw, lookupStore st (getHistoryPropertyKey m) ≠ some (.malformed raw)) :
    getHistory historyMillis now ok st m
      = .ok (saveHistoryLoop ok st (getHistoryPropertyKey m)
          (loadedHistory historyMillis now st m)) := by
  unfold getHistory loadedHistory
  cases hlv : lookupStore st (getHistoryPropertyKey m) with
  | none =>
    rw [show getObjectProperty st (getHistoryPropertyKey m)
        = (.ok none : Except JsErr (Option StoredVal)) from by simp [getObjectProperty, hlv]]
    show (pruneHistories historyMillis now
        (saveHistoryLoop ok st (getHistoryPropertyKey m) (createChatHistory m)).1 >>=
        fun st2 => pure
          (st2, (saveHistoryLoop ok st (getHistoryPropertyKey m) (createChatHistory m)).2))
      = .ok (saveHistoryLoop ok st (getHistoryPropertyKey m) (createChatHistory m))
    rw [pruneHistories_eq_ok, exceptBind_ok]
    rfl
  | some v =>
    cases v with
    | malformed raw => exact absurd hlv (hmal raw)
    | nonHistory raw =>
      rw [show getObjectProperty st (getHistoryPropertyKey m)
          = (.ok (some (.nonHistory raw)) : Except JsErr (Option StoredVal)) from by
            simp [getObjectProperty, hlv]]
      show (pruneHistories historyMillis now
          (saveHistoryLoop ok st (getHistoryPropertyKey m) (createChatHistory m)).1 >>=
          fun st2 => pure
            (st2, (saveHistoryLoop ok st (getHistoryPropertyKey m) (createChatHistory m)).2))
        = .ok (saveHistoryLoop ok st (getHistoryPropertyKey m) (createChatHistory m))
      rw [pruneHistories_eq_ok, exceptBind_ok]
      rfl
    | history hh =>
      rw [show getObjectProperty st (getHistoryPropertyKey m)
          = (.ok (some (.history hh)) : Except JsErr (Option StoredVal)) from by
            simp [getObjectProperty, hlv]]
      show (pruneHistories historyMillis now
          (saveHistoryLoop ok st (getHistoryPropertyKey m)
            { pruneHistory historyMillis now hh with
              messages := sortByTime ((pruneHistory historyMillis now hh).messages
                ++ [toChatHistoryMessage m]) }).1 >>=
          fun st2 => pure
            (st2, (saveHistoryLoop ok st (getHistoryPropertyKey m)
              { pruneHistory historyMillis now hh with
                messages := sortByTime ((pruneHistory historyMillis now hh).messages
                  ++ [toChatHistoryMessage m]) }).2))
        = .ok (saveHistoryLoop ok st (getHistoryPropertyKey m)
            { pruneHistory historyMillis now hh with
              messages := sortByTime ((pruneHistory historyMillis now hh).messages
                ++ [toChatHistoryMessage m]) })
      rw [pruneHistories_eq_ok, exceptBind_ok]
      rfl

/-- C1 (corrected): the save operation drops the single oldest entry and
retries, until either a save succeeds (the saved ledger is the first
savable suffix of the entries) or no entries remain — but in the
no-entries-remain case the code deletes the persisted ledger and returns
normally with the emptied ledger; the failure is only logged, and no error is
surfaced to the caller (whenever the stored value is not JSON-malformed,
`getHistory` returns `ok` for every save oracle). -/
theorem claim1_save_retry_drops_oldest_then_deletes :
    (∀ (ok : ChatHistory → Bool) (st : Store) (k : String) (h : ChatHistory),
      (∃ kdrop, kdrop ≤ h.messages.length ∧
        (saveHistoryLoop ok st k h).2 = { h with messages := h.messages.drop kdrop } ∧
        ok { h with messages := h.messages.drop kdrop } = true ∧
        (∀ j < kdrop, ok { h with messages := h.messages.drop j } = false) ∧
        (saveHistoryLoop ok st k h).1
          = insertStore st k (.history { h with messages := h.messages.drop kdrop }))
      ∨ ((∀ j < h.messages.length, ok { h with messages := h.messages.drop j } = false) ∧
        (saveHistoryLoop ok st k h).2 = { h with messages := [] } ∧
        (saveHistoryLoop ok st k h).1 = eraseStore st k))
    ∧ (∀ (historyMillis now : Int) (ok : ChatHistory → Bool) (st : Store) (m : Message),
        (∀ raw, lookupStore st (getHistoryPropertyKey m) ≠ some (.malformed raw)) →
        ∃ out, getHistory historyMillis now ok st m = .ok out) := by
  constructor
  · intro ok st k h
    rcases trySave_spec (fun ms => ok { h with messages := ms }) h.messages with
      ⟨kd, hk, ht, hpk, hlt⟩ | ⟨ht, hall⟩
    · exact .inl ⟨kd, hk, by simp [saveHistoryLoop, ht], hpk, hlt,
        by simp [saveHistoryLoop, ht]⟩
    · exact .inr ⟨hall, by simp [saveHistoryLoop, ht], by simp [saveHistoryLoop, ht]⟩
  · intro historyMillis now ok st m hmal
    exact ⟨_, getHistory_eq_of_not_malformed historyMillis now ok st m hmal⟩

/-- Witness for C1's amended theorem at a concrete input. -/
theorem claim1_witness :
    ∃ out, getHistory 3600000 10000000 (fun _ => false) []
      ⟨"spaces/A", "t", true, false, "users/1", "U", 9000000, "hi"⟩ = .ok out :=
  claim1_save_retry_drops_oldest_then_deletes.2 3600000 10000000 (fun _ => false) []
    ⟨"spaces/A", "t", true, false, "users/1", "U", 9000000, "hi"⟩
    (fun raw hr => by simp [lookupStore] at hr)

/-- Counterexample to C1 as stated: with a persistence that always fails,
`getHistory` drops every entry including the incoming message, deletes the
stored ledger, and returns `ok` with the emptied ledger — no hard error is
surfaced to the caller. -/
theorem claim1_counterexample :
    getHistory 3600000 10000000 (fun _ => false)
      [("_history/spaces/A", StoredVal.history ⟨"spaces/A", none, [⟨8000000, "U", "prev"⟩]⟩)]
      ⟨"spaces/A", "t", true, false, "users/1", "U", 9000000, "hi"⟩
      = .ok ([], ⟨"spaces/A", none, []⟩) := by decide

/-! ## Claim C9: corrupt stored ledger handling -/

/-- C9 (corrected, amended part): a stored ledger value that parses as JSON
but is rejected by `isChatHistory` is treated as absent — `getHistory`
returns a fresh ledger containing exactly the incoming message (and persists
it, provided the property store accepts the save). -/
theorem claim9_corrupt_parsed_treated_as_absent (historyMillis now : Int)
    (ok : ChatHistory → Bool) (st : Store) (m : Message) (raw : String)
    (hstored : lookupStore st (getHistoryPropertyKey m) = some (.nonHistory raw))
    (hok : ok (createChatHistory m) = true) :
    getHistory historyMillis now ok st m
      = .ok (insertStore st (getHistoryPropertyKey m) (.history (createChatHistory m)),
          createChatHistory m) := by
  have hmal : ∀ r, lookupStore st (getHistoryPropertyKey m) ≠ some (.malformed r) := by
    intro r hr
    rw [hstored] at hr
    simp at hr
  rw [getHistory_eq_of_not_malformed historyMillis now ok st m hmal]
  have hload : loadedHistory historyMillis now st m = createChatHistory m := by
    unfold loadedHistory
    rw [hstored]
    rfl
  rw [hload]
  have hup : ({ createChatHistory m with messages := [toChatHistoryMessage m] } : ChatHistory)
      = createChatHistory m := rfl
  unfold saveHistoryLoop trySave
  show Except.ok
      (match (if ok { createChatHistory m with messages := [toChatHistoryMessage m] } = true
          then some [toChatHistoryMessage m] else none) with
        | some ms =>
          (insertStore st (getHistoryPropertyKey m)
            (.history { createChatHistory m with messages := ms }),
            ({ createChatHistory m with messages := ms } : ChatHistory))
        | none =>
          (eraseStore st (getHistoryPropertyKey m),
            ({ createChatHistory m with messages := [] } : ChatHistory)))
      = _
  rw [hup, hok]
  rfl

/-- Witness for C9's amended theorem at a concrete input. -/
theorem claim9_witness :
    getHistory 3600000 10000000 (fun _ => true)
      [("_history/spaces/A", StoredVal.nonHistory "17")]
      ⟨"spaces/A", "t", true, false, "users/1", "U", 9000000, "hi"⟩
      = .ok ([("_history/spaces/A",
            StoredVal.history ⟨"spaces/A", none, [⟨9000000, "U", "hi"⟩]⟩)],
          ⟨"spaces/A", none, [⟨9000000, "U", "hi"⟩]⟩) :=
  claim9_corrupt_parsed_treated_as_absent 3600000 10000000 (fun _ => true)
    [("_history/spaces/A", StoredVal.nonHistory "17")]
    ⟨"spaces/A", "t", true, false, "users/1", "U", 9000000, "hi"⟩ "17" (by decide) (by decide)

/-- Counterexample to C9 as stated: a stored value that is not valid JSON at
all makes the load fail — `JSON.parse` throws out of `getObjectProperty` and
`getHistory` propagates the error instead of returning a fresh ledger. -/
theorem claim9_counterexample :
    getHistory 3600000 10000000 (fun _ => true)
      [("_history/spaces/A", StoredVal.malformed "oops")]
      ⟨"spaces/A", "t", true, false, "users/1", "U", 9000000, "hi"⟩
      = .error .jsonParseError := by decide

/-! ## Witnesses for C2 -/

/-- Witness for C2 at the spec's example: entries aged [120, 90, 40, 5]
minutes against a 60-minute window prune to exactly the last two. -/
theorem claim2_witness :
    (pruneHistoryMessages 3600000 10000000 claim2ExampleMessages
      = List.filter (fun m => decide ((10000000 : Int) - m.time ≤ 3600000))
          claim2ExampleMessages ∧
      ∃ k, pruneHistoryMessages 3600000 10000000 claim2ExampleMessages
        = List.drop k claim2ExampleMessages ∧
        ∀ m ∈ List.take k claim2ExampleMessages, (3600000 : Int) < 10000000 - m.time) ∧
    pruneHistoryMessages 3600000 10000000 claim2ExampleMessages
      = [⟨7600000, "u", "c"⟩, ⟨9700000, "u", "d"⟩] :=
  ⟨claim2_prune_removes_exactly_stale_head 3600000 10000000 claim2ExampleMessages (by decide), by decide⟩

/-! ## Claim C4: the `/again` command -/

theorem dropWhile_head_false {α : Type} (p : α → Bool) (l : List α) (x : α) (xs : List α)
    (h : l.dropWhile p = x :: xs) : p x = false := by
  induction l with
  | nil => simp [List.dropWhile] at h
  | cons a as ih =>
    by_cases hp : p a = true
    · rw [List.dropWhile_cons_of_pos hp] at h
      exact ih h
    · have hp' : p a = false := by revert hp; cases p a <;> simp
      rw [List.dropWhile_cons_of_neg (by simp [hp'])] at h
      obtain ⟨rfl, -⟩ := List.cons.injEq .. ▸ h
      exact hp'

/-- C4 (confirmed): `/again` re-executes a recorded image command verbatim;
otherwise it removes trailing assistant-role entries (possibly several) until
the last entry is user-role or nothing remains, then re-requests completion
on the remaining prefix, and raises the nothing-to-repeat command error when
the history becomes empty. -/
theorem claim4_again_behavior (history : RoleHistory)
    (hroles : ∀ m ∈ history.messages, m.role = "user" ∨ m.role = "assistant") :
    (∀ ic, history.imageCommand = some ic →
      commandAgain none history = .ok (.repeatImage ic.arg)) ∧
    (history.imageCommand = none →
      ∃ k, k ≤ history.messages.length ∧
        (∀ m ∈ history.messages.drop k, m.role = "assistant") ∧
        (history.messages.take k = [] ∨
          ∃ m0, (history.messages.take k).getLast? = some m0 ∧ m0.role = "user") ∧
        commandAgain none history =
          (if k = 0 then .error (.commandError "No chat history available to be repeated.")
            else .ok (.completionOn (history.messages.take k)))) := by
  constructor
  · intro ic hic
    simp [commandAgain, hic]
  · intro hnone
    have hsplit := List.takeWhile_append_dropWhile
      (fun m => m.role == ROLE_ASSISTANT) history.messages.reverse
    generalize ht : history.messages.reverse.takeWhile
      (fun m => m.role == ROLE_ASSISTANT) = t at hsplit
    generalize hd : history.messages.reverse.dropWhile
      (fun m => m.role == ROLE_ASSISTANT) = d at hsplit
    have hmsgs : history.messages = d.reverse ++ t.reverse := by
      rw [← List.reverse_reverse history.messages, ← hsplit, List.reverse_append]
    have htake : history.messages.take d.length = d.reverse := by
      rw [hmsgs, ← List.length_reverse d, List.take_left]
    have hdropm : history.messages.drop d.length = t.reverse := by
      rw [hmsgs, ← List.length_reverse d, List.drop_left]
    have hrem : dropTrailingAssistant history.messages = d.reverse := by
      unfold dropTrailingAssistant
      rw [hd]
    refine ⟨d.length, ?_, ?_, ?_, ?_⟩
    · rw [hmsgs, List.length_append, List.length_reverse]
      omega
    · intro m hm
      rw [hdropm] at hm
      have hmem : m ∈ history.messages.reverse.takeWhile
          (fun m => m.role == ROLE_ASSISTANT) := by
        rw [ht]
        exact List.mem_reverse.mp hm
      have hbeq := List.mem_takeWhile_imp hmem
      simpa [ROLE_ASSISTANT] using hbeq
    · cases hdnil : d with
      | nil =>
        left
        simp
      | cons x xs =>
        right
        have hx : (fun m : RoleMessage => m.role == ROLE_ASSISTANT) x = false := by
          apply dropWhile_head_false (fun m : RoleMessage => m.role == ROLE_ASSISTANT)
            history.messages.reverse x xs
          rw [hd, hdnil]
        have htake2 : history.messages.take (x :: xs).length = (x :: xs).reverse := by
          rw [← hdnil, htake, hdnil]
        refine ⟨x, ?_, ?_⟩
        · rw [htake2, List.getLast?_reverse]
          rfl
        · have hxm : x ∈ history.messages := by
            have hxrev : x ∈ history.messages.reverse := by
              apply (List.dropWhile_sublist
                (fun m : RoleMessage => m.role == ROLE_ASSISTANT)).subset
              rw [hd, hdnil]
              simp
            exact List.mem_reverse.mp hxrev
          rcases hroles x hxm with hr | hr
          · exact hr
          · exfalso
            simp [ROLE_ASSISTANT, hr] at hx
    · rw [show commandAgain none history
          = (if (dropTrailingAssistant history.messages).length < 1 then
              .error (.commandError "No chat history available to be repeated.")
            else .ok (.completionOn (dropTrailingAssistant history.messages))) from by
        simp [commandAgain, hnone]]
      rw [hrem, htake, List.length_reverse]
      cases hdnil : d with
      | nil => simp
      | cons x xs => simp

/-- Witness for C4 at the spec's examples: `[user "hi", assistant "hello"]`
drops the assistant entry and re-requests completion on `[user "hi"]`; an
assistant-only history raises the nothing-to-repeat error; a recorded image
command is replayed verbatim. -/
theorem claim4_witness :
    ((∀ ic, (⟨[⟨"user", "hi"⟩, ⟨"assistant", "hello"⟩], none⟩ : RoleHistory).imageCommand
          = some ic →
        commandAgain none ⟨[⟨"user", "hi"⟩, ⟨"assistant", "hello"⟩], none⟩
          = .ok (.repeatImage ic.arg)) ∧
      ((⟨[⟨"user", "hi"⟩, ⟨"assistant", "hello"⟩], none⟩ : RoleHistory).imageCommand = none →
        ∃ k, k ≤ ([⟨"user", "hi"⟩, ⟨"assistant", "hello"⟩] : List RoleMessage).length ∧
          (∀ m ∈ ([⟨"user", "hi"⟩, ⟨"assistant", "hello"⟩] : List RoleMessage).drop k,
            m.role = "assistant") ∧
          (([⟨"user", "hi"⟩, ⟨"assistant", "hello"⟩] : List RoleMessage).take k = [] ∨
            ∃ m0, (([⟨"user", "hi"⟩, ⟨"assistant", "hello"⟩] : List RoleMessage).take k).getLast?
                = some m0 ∧ m0.role = "user") ∧
          commandAgain none ⟨[⟨"user", "hi"⟩, ⟨"assistant", "hello"⟩], none⟩ =
            (if k = 0 then .error (.commandError "No chat history available to be repeated.")
              else .ok (.completionOn
                (([⟨"user", "hi"⟩, ⟨"assistant", "hello"⟩] : List RoleMessage).take k))))) ∧
    commandAgain none ⟨[⟨"user", "hi"⟩, ⟨"assistant", "hello"⟩], none⟩
      = .ok (.completionOn [⟨"user", "hi"⟩]) ∧
    commandAgain none ⟨[⟨"assistant", "hello"⟩], none⟩
      = .error (.commandError "No chat history available to be repeated.") ∧
    commandAgain none ⟨[], some ⟨5, "n=2 cat"⟩⟩ = .ok (.repeatImage "n=2 cat") :=
  ⟨claim4_again_behavior ⟨[⟨"user", "hi"⟩, ⟨"assistant", "hello"⟩], none⟩ (by decide),
    by decide, by decide, by decide⟩

/-! ## Claim C5: the `/image` argument grammar -/

/-- C5 (confirmed): the `n=` and `WxH` tokens are matched independently, in
either order or absent, and stripped; the trimmed remainder is the prompt;
the requested size snaps to the smallest supported size at least as large in
both dimensions (largest supported size when none qualifies); and the parse
fails with the invalid-arguments error exactly when the argument is absent or
empty or the remaining prompt trims to empty — so `/image n=3` is an error
even though its argument string is non-empty. -/
theorem claim5_image_argument_grammar :
    commandImageParse (some "n=3 256x256 a cat")
      = .ok { prompt := "a cat", n := some 3, size := some "256x256" } ∧
    commandImageParse (some "256x256 n=3 a cat")
      = .ok { prompt := "a cat", n := some 3, size := some "256x256" } ∧
    commandImageParse (some "a cat") = .ok { prompt := "a cat", n := none, size := none } ∧
    commandImageParse (some "n=3") = .error (.commandError INVALID_ARGS_MSG) ∧
    (∀ width height, snapImageSize width height = specSnapSize width height) ∧
    (∀ arg, (∃ e, commandImageParse arg = .error e) ↔
      (argTruthy arg = false ∨ (((imageStrip arg).2.2).map jsTrim).getD "" = "")) := by
  refine ⟨by decide, by decide, by decide, by decide, ?_, ?_⟩
  · intro width height
    have e1 : sizeMatches width height "256x256"
        = (decide (width ≤ 256) && decide (height ≤ 256)) := rfl
    have e2 : sizeMatches width height "512x512"
        = (decide (width ≤ 512) && decide (height ≤ 512)) := rfl
    have e3 : sizeMatches width height "1024x1024"
        = (decide (width ≤ 1024) && decide (height ≤ 1024)) := rfl
    unfold snapImageSize supportedImageSizes specSnapSize
    simp only [List.filter_cons, List.filter_nil]
    rw [e1, e2, e3]
    cases hb1 : (decide (width ≤ 256) && decide (height ≤ 256)) <;>
      cases hb2 : (decide (width ≤ 512) && decide (height ≤ 512)) <;>
        cases hb3 : (decide (width ≤ 1024) && decide (height ≤ 1024)) <;> rfl
  · intro arg
    unfold commandImageParse
    by_cases htr : argTruthy arg = true
    · by_cases hp : ((((imageStrip arg).2.2).map jsTrim).getD "") = ""
      · have hbool : ((((imageStrip arg).2.2).map jsTrim).getD "").isEmpty = true := by
          rw [hp]
          rfl
        rw [if_neg (by simp [htr, hbool])]
        exact ⟨fun _ => .inr hp, fun _ => ⟨_, rfl⟩⟩
      · have hbool : ((((imageStrip arg).2.2).map jsTrim).getD "").isEmpty = false := by
          cases hbb : ((((imageStrip arg).2.2).map jsTrim).getD "").isEmpty with
          | false => rfl
          | true => exact absurd ((String.isEmpty_iff _).mp hbb) hp
        rw [if_pos (by simp [htr, hbool])]
        simp [htr, hp]
    · have htr' : argTruthy arg = false := by revert htr; cases argTruthy arg <;> simp
      rw [if_neg (by simp [htr'])]
      simp [htr']

/-! ## Claim C8: history saved before a completion failure propagates -/

theorem mem_insertByTime (x a : ChatHistoryMessage) (l : List ChatHistoryMessage) :
    a ∈ insertByTime x l ↔ a = x ∨ a ∈ l := by
  induction l with
  | nil => simp [insertByTime]
  | cons y ys ih =>
    unfold insertByTime
    by_cases hc : x.time ≤ y.time
    · simp [hc]
    · simp [hc, ih]
      tauto

theorem mem_sortByTime (a : ChatHistoryMessage) (l : List ChatHistoryMessage) :
    a ∈ sortByTime l ↔ a ∈ l := by
  induction l with
  | nil => simp [sortByTime]
  | cons x xs ih => simp [sortByTime, mem_insertByTime, ih]

/-- C8 (confirmed): for a non-command message whose completion request fails,
the pipeline still persists the ledger — containing the triggering user
message — before the error propagates to the outer handler. -/
theorem claim8_history_saved_on_completion_failure (historyMillis now : Int) (st : Store)
    (m : Message)
    (completion : List ChatHistoryMessage → Except UpstreamErr (String × List ChatHistoryMessage))
    (e : UpstreamErr)
    (hfail : completion (getHistoryNoPersist historyMillis now st m).messages = .error e) :
    (onMessageCompletionPath historyMillis now st m completion).2 = .error e ∧
    ∃ h, lookupStore (onMessageCompletionPath historyMillis now st m completion).1
        (getHistoryPropertyKey m) = some (.history h) ∧
      toChatHistoryMessage m ∈ h.messages := by
  unfold onMessageCompletionPath
  rw [hfail]
  refine ⟨rfl, getHistoryNoPersist historyMillis now st m, ?_, ?_⟩
  · exact lookupStore_insertStore_self ..
  · unfold getHistoryNoPersist
    cases hb : (lookupStore st (getHistoryPropertyKey m)).bind isChatHistoryVal with
    | none => simp [createChatHistory]
    | some hh => simp [mem_sortByTime]

/-- Witness for C8 at a concrete input. -/
theorem claim8_witness :
    (onMessageCompletionPath 3600000 10000000 [] ⟨"spaces/A", "t", true, false, "users/1", "U",
        9000000, "hi"⟩ (fun _ => .error .completionFailed)).2 = .error .completionFailed ∧
    ∃ h, lookupStore (onMessageCompletionPath 3600000 10000000 []
          ⟨"spaces/A", "t", true, false, "users/1", "U", 9000000, "hi"⟩
          (fun _ => .error .completionFailed)).1
        (getHistoryPropertyKey ⟨"spaces/A", "t", true, false, "users/1", "U", 9000000, "hi"⟩)
        = some (.history h) ∧
      toChatHistoryMessage ⟨"spaces/A", "t", true, false, "users/1", "U", 9000000, "hi"⟩
        ∈ h.messages :=
  claim8_history_saved_on_completion_failure 3600000 10000000 []
    ⟨"spaces/A", "t", true, false, "users/1", "U", 9000000, "hi"⟩
    (fun _ => .error .completionFailed) .completionFailed rfl

/-! ## Claim C10: `/set` refuses protected keys -/

/-- C10 (confirmed): for every caller and value, `/set` on `OPENAI_API_KEY`,
`ADMINS`, or any internally-prefixed key is rejected with an error and leaves
the property store unchanged; when the caller passes the admin check the
rejection is precisely the unauthorized "can not be set via chat" error, and
when the caller fails the admin check the command is already rejected there
(also without touching the store). -/
theorem claim10_set_protected_keys (encode : String → StoredVal) (adminsProp : Option String)
    (st : Store) (m : Message) (a : String) (key : String) (rawValue : Option String)
    (hmatch : matchPropertyValue (jsTrim a) = some (key, rawValue))
    (hprot : key = PROP_OPENAI_API_KEY ∨ key = PROP_ADMINS ∨ jsStartsWith key "_" = true) :
    (∃ e, commandSet encode adminsProp st m (some a) = (st, .error e)) ∧
    (checkAdmin adminsProp m = .ok () →
      commandSet encode adminsProp st m (some a)
        = (st, .error (.unauthorizedError "This property can not be set via chat"))) := by
  have hguard : (key == PROP_OPENAI_API_KEY || key == PROP_ADMINS || jsStartsWith key "_")
      = true := by
    rcases hprot with h | h | h <;> simp [h]
  constructor
  · cases hca : checkAdmin adminsProp m with
    | error e => exact ⟨e, by simp [commandSet, hca]⟩
    | ok u =>
      exact ⟨.unauthorizedError "This property can not be set via chat",
        by simp [commandSet, hca, hmatch, hguard]⟩
  · intro hca
    simp [commandSet, hca, hmatch, hguard]

/-- Witness for C10 at a concrete input: an admin caller in a one-to-one chat
still cannot `/set ADMINS`. -/
theorem claim10_witness :
    (∃ e, commandSet StoredVal.nonHistory (some "users/1") [("X", StoredVal.nonHistory "v")]
        ⟨"spaces/A", "t", true, true, "users/1", "U", 0, "cmd"⟩ (some "ADMINS users/2")
      = ([("X", StoredVal.nonHistory "v")], .error e)) ∧
    (checkAdmin (some "users/1") ⟨"spaces/A", "t", true, true, "users/1", "U", 0, "cmd"⟩
        = .ok () →
      commandSet StoredVal.nonHistory (some "users/1") [("X", StoredVal.nonHistory "v")]
        ⟨"spaces/A", "t", true, true, "users/1", "U", 0, "cmd"⟩ (some "ADMINS users/2")
      = ([("X", StoredVal.nonHistory "v")],
          .error (.unauthorizedError "This property can not be set via chat"))) :=
  claim10_set_protected_keys StoredVal.nonHistory (some "users/1")
    [("X", StoredVal.nonHistory "v")] ⟨"spaces/A", "t", true, true, "users/1", "U", 0, "cmd"⟩
    "ADMINS users/2" "ADMINS" (some "users/2") (by decide) (.inr (.inl rfl))

end AIChatter
